import Mathlib

/-!
# Verification of the fHUD shared-memory transport core

Shallow embedding of the fHUD repository's ring-buffer transport and
circular audio sample buffer, with proofs of the specification's claims.

Embedding conventions:
* bytes are `Nat` values (each `< 256`);
* Python integers are `Int` (Python's `%` with a positive divisor agrees
  with Lean's `Int.emod`);
* a word is represented by its UTF-8 byte list (the codec treats the word
  bytes opaquely; UTF-8 encoding of text is a bijection onto its range);
* an IEEE-754 `f64`/`f32` value is represented by its bit pattern
  (`Nat < 2^64` / `Nat < 2^32`): `struct.pack "<d"` / `"<f"` serialize
  exactly that bit pattern little-endian, so this is lossless for every
  valid input;
* numpy sample arrays are `List α` for an arbitrary sample type `α`
  (the buffer only copies samples, never computes with them);
* byte / sample stores are modelled as functions `Int → _` updated by
  slice writes.
-/

/-- Little-endian byte serialization: `toLE w v` is the `w`-byte
little-endian encoding of `v` (mod `256^w`), as written by
`struct.pack` for the fixed-width fields. -/
def toLE : Nat → Nat → List Nat
  | 0, _ => []
  | w + 1, v => v % 256 :: toLE w (v / 256)

/-- Little-endian byte deserialization, the reading direction of the
wire format's fixed-width fields. -/
def fromLE : List Nat → Nat
  | [] => 0
  | b :: bs => b + 256 * fromLE bs

theorem toLE_length (w v : Nat) : (toLE w v).length = w := by
  induction w generalizing v with
  | zero => rfl
  | succ w ih => simp [toLE, ih]

theorem fromLE_toLE (w v : Nat) (h : v < 256 ^ w) : fromLE (toLE w v) = v := by
  induction w generalizing v with
  | zero =>
    simp [pow_zero] at h
    simp [toLE, fromLE, h]
  | succ w ih =>
    have hdiv : v / 256 < 256 ^ w := by
      rw [Nat.div_lt_iff_lt_mul (by norm_num)]
      calc v < 256 ^ (w + 1) := h
        _ = 256 ^ w * 256 := by ring
    simp [toLE, fromLE, ih (v / 256) hdiv]
    omega

/-!
## Frame codec

`_write_word` in `main_server.py` builds each frame as

    entry = struct.pack("<HdfH", entry_len, timestamp, confidence, word_len) + data
    entry += b"\x00" * (padded - len(entry))

with `entry_len = 2 + 8 + 4 + 2 + word_len` and
`padded = (entry_len + 7) & ~7` (round up to a multiple of 8; on a
non-negative Python int `x & ~7 = x / 8 * 8`).
-/

/-- The frame bytes built by `_write_word` for one word: the packed
header, the word bytes, and zero padding up to `padded` bytes. -/
def frameBytes (word : List Nat) (tsBits confBits : Nat) : List Nat :=
  let word_len := word.length
  let entry_len := 2 + 8 + 4 + 2 + word_len
  let padded := (entry_len + 7) / 8 * 8
  toLE 2 entry_len ++ toLE 8 tsBits ++ toLE 4 confBits ++ toLE 2 word_len
    ++ word ++ List.replicate (padded - entry_len) 0

/-- Frame encoding as performed by `_write_word`: `struct.pack` with
format `"<H"` raises `struct.error` when the value does not fit in a
`u16`, so encoding fails when `entry_len` exceeds `65535` (the `u16`
bound on `word_len` is implied, `word_len < entry_len`). -/
def encodeFrame (word : List Nat) (tsBits confBits : Nat) : Option (List Nat) :=
  if 2 + 8 + 4 + 2 + word.length ≤ 65535 then some (frameBytes word tsBits confBits)
  else none

/-- Modelled from the spec: no binary frame decoder exists under `src/`
(the reader in `asr_websocket_bridge.py` splits UTF-8 text instead of
decoding frames), so `decode` is taken from §4.1: read the four
little-endian header fields, fail (`MalformedFrameError`, here `none`)
when the declared `entry_len`/`word_len` are inconsistent with the
supplied buffer length, and ignore the padding bytes. -/
def decodeFrame (bs : List Nat) : Option (List Nat × Nat × Nat) :=
  if bs.length < 16 then none
  else if fromLE (bs.take 2) = 2 + 8 + 4 + 2 + fromLE ((bs.drop 14).take 2)
      ∧ fromLE (bs.take 2) ≤ bs.length then
    some ((bs.drop 16).take (fromLE ((bs.drop 14).take 2)),
      fromLE ((bs.drop 2).take 8), fromLE ((bs.drop 10).take 4))
  else none

/-- The wire format exactly as §3/§6 of the spec describe it:
`entry_len:u16 (LE) | timestamp:f64 (LE) | confidence:f32 (LE) |
word_len:u16 (LE) | word_bytes[word_len] | zero-pad to 8-byte
alignment`, with `entry_len = 2 + 8 + 4 + 2 + word_len`. -/
def specWireFrame (word : List Nat) (tsBits confBits : Nat) : List Nat :=
  let word_len := word.length
  let entry_len := 2 + 8 + 4 + 2 + word_len
  toLE 2 entry_len ++ toLE 8 tsBits ++ toLE 4 confBits ++ toLE 2 word_len
    ++ word ++ List.replicate ((8 - entry_len % 8) % 8) 0

theorem frameBytes_assoc (word : List Nat) (tsBits confBits : Nat) :
    frameBytes word tsBits confBits
      = toLE 2 (2 + 8 + 4 + 2 + word.length)
        ++ (toLE 8 tsBits
        ++ (toLE 4 confBits
        ++ (toLE 2 word.length
        ++ (word
        ++ List.replicate
            ((2 + 8 + 4 + 2 + word.length + 7) / 8 * 8 - (2 + 8 + 4 + 2 + word.length))
            0)))) := by
  simp [frameBytes]

theorem frameBytes_length (word : List Nat) (tsBits confBits : Nat) :
    (frameBytes word tsBits confBits).length
      = (2 + 8 + 4 + 2 + word.length + 7) / 8 * 8 := by
  rw [frameBytes_assoc]
  simp [toLE_length]
  omega

/-- **C1**: Round trip — for every valid input (word bytes, `f64`
timestamp bit pattern, `f32` confidence bit pattern), decoding the bytes
produced by encoding yields back the same word, timestamp and
confidence; the zero padding is discarded by decode. -/
theorem frame_roundtrip (word : List Nat) (tsBits confBits : Nat) (bs : List Nat)
    (hts : tsBits < 2 ^ 64) (hconf : confBits < 2 ^ 32)
    (henc : encodeFrame word tsBits confBits = some bs) :
    decodeFrame bs = some (word, tsBits, confBits) := by
  have hwl : 2 + 8 + 4 + 2 + word.length ≤ 65535 := by
    by_contra h
    simp [encodeFrame, h] at henc
  have hbs : bs = frameBytes word tsBits confBits := by
    simp [encodeFrame, hwl] at henc
    exact henc.symm
  have h2568 : (2 : Nat) ^ 64 = 256 ^ 8 := by norm_num
  have h2564 : (2 : Nat) ^ 32 = 256 ^ 4 := by norm_num
  have h2562 : (256 : Nat) ^ 2 = 65536 := by norm_num
  set pad : List Nat :=
    List.replicate
      ((2 + 8 + 4 + 2 + word.length + 7) / 8 * 8 - (2 + 8 + 4 + 2 + word.length)) 0
    with hpaddef
  have hlen : bs.length = (2 + 8 + 4 + 2 + word.length + 7) / 8 * 8 := by
    rw [hbs, frameBytes_length]
  have hg2 : bs = toLE 2 (2 + 8 + 4 + 2 + word.length)
      ++ (toLE 8 tsBits ++ (toLE 4 confBits ++ (toLE 2 word.length ++ (word ++ pad)))) := by
    rw [hbs, frameBytes_assoc]
  have hg10 : bs = (toLE 2 (2 + 8 + 4 + 2 + word.length) ++ toLE 8 tsBits)
      ++ (toLE 4 confBits ++ (toLE 2 word.length ++ (word ++ pad))) := by
    rw [hg2]; simp [List.append_assoc]
  have hg14 : bs = ((toLE 2 (2 + 8 + 4 + 2 + word.length) ++ toLE 8 tsBits)
        ++ toLE 4 confBits)
      ++ (toLE 2 word.length ++ (word ++ pad)) := by
    rw [hg2]; simp [List.append_assoc]
  have hg16 : bs = (((toLE 2 (2 + 8 + 4 + 2 + word.length) ++ toLE 8 tsBits)
        ++ toLE 4 confBits) ++ toLE 2 word.length)
      ++ (word ++ pad) := by
    rw [hg2]; simp [List.append_assoc]
  have htake2 : bs.take 2 = toLE 2 (2 + 8 + 4 + 2 + word.length) := by
    rw [hg2]; exact List.take_left' (toLE_length 2 _)
  have hfrom2 : fromLE (bs.take 2) = 2 + 8 + 4 + 2 + word.length := by
    rw [htake2]; exact fromLE_toLE 2 _ (by omega)
  have hdrop2 : bs.drop 2
      = toLE 8 tsBits ++ (toLE 4 confBits ++ (toLE 2 word.length ++ (word ++ pad))) := by
    rw [hg2]; exact List.drop_left' (toLE_length 2 _)
  have hfrom8 : fromLE ((bs.drop 2).take 8) = tsBits := by
    rw [hdrop2, List.take_left' (toLE_length 8 _)]
    exact fromLE_toLE 8 _ (h2568 ▸ hts)
  have hdrop10 : bs.drop 10
      = toLE 4 confBits ++ (toLE 2 word.length ++ (word ++ pad)) := by
    rw [hg10]; exact List.drop_left' (by simp [toLE_length])
  have hfrom4 : fromLE ((bs.drop 10).take 4) = confBits := by
    rw [hdrop10, List.take_left' (toLE_length 4 _)]
    exact fromLE_toLE 4 _ (h2564 ▸ hconf)
  have hdrop14 : bs.drop 14 = toLE 2 word.length ++ (word ++ pad) := by
    rw [hg14]; exact List.drop_left' (by simp [toLE_length])
  have hfrom14 : fromLE ((bs.drop 14).take 2) = word.length := by
    rw [hdrop14, List.take_left' (toLE_length 2 _)]
    exact fromLE_toLE 2 _ (by omega)
  have hdrop16 : bs.drop 16 = word ++ pad := by
    rw [hg16]; exact List.drop_left' (by simp [toLE_length])
  have htakeWord : (bs.drop 16).take word.length = word := by
    rw [hdrop16]; exact List.take_left word pad
  have h16 : ¬ bs.length < 16 := by rw [hlen]; omega
  have hcond : fromLE (bs.take 2) = 2 + 8 + 4 + 2 + fromLE ((bs.drop 14).take 2)
      ∧ fromLE (bs.take 2) ≤ bs.length := by
    refine ⟨by rw [hfrom2, hfrom14], ?_⟩
    rw [hfrom2, hlen]; omega
  rw [decodeFrame, if_neg h16, if_pos hcond, hfrom14, htakeWord, hfrom8, hfrom4]

/-- Witness for **C1** at the concrete input "hi" (`[104, 105]`),
timestamp bits `3`, confidence bits `5`. -/
theorem frame_roundtrip_witness :
    decodeFrame (frameBytes [104, 105] 3 5) = some ([104, 105], 3, 5) :=
  frame_roundtrip [104, 105] 3 5 (frameBytes [104, 105] 3 5)
    (by norm_num) (by norm_num) (by decide)

/-- **C2**: the encoded frame is exactly
`entry_len:u16 | timestamp:f64 | confidence:f32 | word_len:u16` (all
little-endian), then the `word_len` word bytes, then zero bytes padding
to the next multiple of 8, with `entry_len = 2 + 8 + 4 + 2 + word_len`;
in particular the frame length is a multiple of 8. -/
theorem frame_wire_format (word : List Nat) (tsBits confBits : Nat) (bs : List Nat)
    (henc : encodeFrame word tsBits confBits = some bs) :
    bs = specWireFrame word tsBits confBits ∧ bs.length % 8 = 0 := by
  have hwl : 2 + 8 + 4 + 2 + word.length ≤ 65535 := by
    by_contra h
    simp [encodeFrame, h] at henc
  have hbs : bs = frameBytes word tsBits confBits := by
    simp [encodeFrame, hwl] at henc
    exact henc.symm
  constructor
  · have hpad : (2 + 8 + 4 + 2 + word.length + 7) / 8 * 8 - (2 + 8 + 4 + 2 + word.length)
        = (8 - (2 + 8 + 4 + 2 + word.length) % 8) % 8 := by omega
    rw [hbs]
    simp only [frameBytes, specWireFrame, hpad]
  · rw [hbs, frameBytes_length]
    omega

/-- Witness for **C2** at the concrete input "hi" (`[104, 105]`),
timestamp bits `3`, confidence bits `5`. -/
theorem frame_wire_format_witness :
    frameBytes [104, 105] 3 5 = specWireFrame [104, 105] 3 5
      ∧ (frameBytes [104, 105] 3 5).length % 8 = 0 :=
  frame_wire_format [104, 105] 3 5 (frameBytes [104, 105] 3 5) (by decide)

/-!
## Byte / sample stores

Python slices over a fixed-size `mmap`/numpy array are modelled as
functions `Int → β` together with a slice-read (`buf[s : s + len]`) and
a slice-write (`buf[s : s + len(data)] = data`).
-/

/-- `sliceRead f s len` models the Python slice `f[s : s + len]`
(empty for `len ≤ 0`). -/
def sliceRead {β : Type} (f : Int → β) (s len : Int) : List β :=
  (List.range len.toNat).map fun i : Nat => f (s + (i : Int))

/-- `sliceWrite f s data` models the slice assignment
`f[s : s + len(data)] = data`. -/
def sliceWrite {β : Type} (f : Int → β) (s : Int) (data : List β) : Int → β :=
  fun i => if s ≤ i ∧ i < s + data.length then data.getD (i - s).toNat (f i) else f i

theorem sliceRead_length {β : Type} (f : Int → β) (s len : Int) :
    (sliceRead f s len).length = len.toNat := by
  simp [sliceRead]

/-- Shifting the base of a slice read into the function. -/
theorem sliceRead_shift {β : Type} (buf : Int → β) (b s len : Int) :
    sliceRead buf (b + s) len = sliceRead (fun x => buf (b + x)) s len := by
  simp only [sliceRead]
  refine List.map_congr_left fun i _ => ?_
  congr 1
  ring

/-- A two-part wraparound read of a circular region of capacity `cap`
equals the pointwise modular view: element `i` comes from offset
`(start + i) % cap`. -/
theorem wrap_read_eq {β : Type} (f : Int → β) (cap start len : Int)
    (h0 : 0 ≤ start) (h1 : start < cap) (h2 : 0 ≤ len) (h3 : len ≤ cap) :
    (if start + len ≤ cap then sliceRead f start len
     else sliceRead f start (cap - start) ++ sliceRead f 0 (len - (cap - start)))
      = (List.range len.toNat).map fun i : Nat => f ((start + (i : Int)) % cap) := by
  simp only [sliceRead]
  split
  · refine List.map_congr_left fun i hi => ?_
    rw [List.mem_range] at hi
    rw [Int.emod_eq_of_lt (by omega) (by omega)]
  · have hsplit : len.toNat = (cap - start).toNat + (len - (cap - start)).toNat := by
      omega
    rw [hsplit, List.range_add, List.map_append, List.map_map]
    congr 1
    · refine List.map_congr_left fun i hi => ?_
      rw [List.mem_range] at hi
      rw [Int.emod_eq_of_lt (by omega) (by omega)]
    · refine List.map_congr_left fun i hi => ?_
      rw [List.mem_range] at hi
      simp only [Function.comp_apply]
      have harg : start + (((cap - start).toNat + i : Nat) : Int) = i + 1 * cap := by
        push_cast
        omega
      rw [harg, Int.add_mul_emod_self, Int.emod_eq_of_lt (by omega) (by omega)]
      congr 1
      omega

/-!
## Ring writer (`_write_word` in `main_server.py`)

The shared region is `buf` of byte length `S` (`SHM_SIZE = 64 * 1024` in
the source, kept general here). The writer's view:
`head:u32` at offset 0, `tail:u32` at offset 4, `version:u8` at offset 8
(`VERSION_BYTE = 1`), payload at `DATA_OFFSET = 9` with
`CAPACITY = S - 9`. The state is modelled with the header fields
explicit and the payload as a function from writer-relative offset
(absolute offset minus 9) to the byte stored there.
-/

/-- The writer's view of the shared region: the two cursors, the version
byte at offset 8, and the payload bytes (writer-relative offsets). -/
structure ShmRing where
  head : Int
  tail : Int
  version : Nat
  data : Int → Nat

/-- `padded = (entry_len + 7) & ~7` from `_write_word`: the frame length
rounded up to a multiple of 8 (on a non-negative int, `x & ~7` clears
the low three bits). -/
def paddedLen (word : List Nat) : Int :=
  (((2 + 8 + 4 + 2 + word.length + 7) / 8 * 8 : Nat) : Int)

/-- `space_left = CAPACITY - ((head - tail) % CAPACITY)` from
`_write_word`. -/
def spaceLeft (S : Int) (r : ShmRing) : Int :=
  (S - 9) - ((r.head - r.tail) % (S - 9))

/-- Shallow embedding of `_write_word`: evict by advancing `tail` when
the padded frame exceeds the space left, set the version byte, copy the
frame at `head` with wraparound, and advance `head`. `struct.pack "<H"`
raises when `entry_len` exceeds `65535`, hence the `none` branch. -/
def writeWord (S : Int) (r : ShmRing) (word : List Nat) (tsBits confBits : Nat) :
    Option ShmRing :=
  if 2 + 8 + 4 + 2 + word.length ≤ 65535 then
    let tail1 := if paddedLen word > spaceLeft S r
      then (r.tail + (paddedLen word - spaceLeft S r)) % (S - 9)
      else r.tail
    let version1 := if r.version ≠ 1 then 1 else r.version
    let entry := frameBytes word tsBits confBits
    let data1 := if r.head + paddedLen word ≤ S - 9
      then sliceWrite r.data r.head entry
      else
        sliceWrite (sliceWrite r.data r.head (entry.take (S - 9 - r.head).toNat)) 0
          (entry.drop (S - 9 - r.head).toNat)
    some { head := (r.head + paddedLen word) % (S - 9), tail := tail1,
           version := version1, data := data1 }
  else none

/-- **C3**: in every successful frame write, when the padded frame
length exceeds `space_left` the shared `tail` cursor is advanced by
exactly `(padded_len - space_left) % capacity` (the overflow amount),
and `tail` is unchanged otherwise. -/
theorem writer_eviction (S : Int) (r r2 : ShmRing) (word : List Nat)
    (tsBits confBits : Nat)
    (hw : writeWord S r word tsBits confBits = some r2) :
    (paddedLen word > spaceLeft S r →
      r2.tail = (r.tail + (paddedLen word - spaceLeft S r) % (S - 9)) % (S - 9))
    ∧ (paddedLen word ≤ spaceLeft S r → r2.tail = r.tail) := by
  have hfit : 2 + 8 + 4 + 2 + word.length ≤ 65535 := by
    by_contra h
    simp [writeWord, h] at hw
  rw [writeWord, if_pos hfit, Option.some.injEq] at hw
  constructor
  · intro hcase
    rw [← hw]
    simp only [if_pos hcase]
    rw [Int.add_emod_emod]
  · intro hcase
    rw [← hw]
    simp only [if_neg (not_lt.mpr hcase)]

/-- Witness for **C3**: capacity 24, `head = 0`, `tail = 1`, so
`space_left = 1` and the 24-byte frame for "hi" forces an eviction
advancing `tail` by 23 to `(1 + 23) % 24 = 0`. -/
theorem writer_eviction_witness :
    paddedLen [104, 105] > spaceLeft 33 ⟨0, 1, 0, fun _ => 0⟩
      ∧ ((1 : Int) + (paddedLen [104, 105] - spaceLeft 33 ⟨0, 1, 0, fun _ => 0⟩)
          % (33 - 9)) % (33 - 9) = 0 := by
  have h := writer_eviction 33 ⟨0, 1, 0, fun _ => 0⟩
    ⟨0, 0, 1, sliceWrite (fun _ => 0) 0 (frameBytes [104, 105] 3 5)⟩
    [104, 105] 3 5 rfl
  exact ⟨by decide, (h.1 (by decide)).symm⟩

/-!
## Ring reader (`ASRWebSocketBridge.read_shared_memory_loop`)

One iteration of the bridge's polling loop, given the `head` value it
read from the header and its privately remembered cursor `last_tail`.
The bridge computes `capacity = len(buf) - 8` and copies from absolute
offset `8 + read_pos` — note this differs from the writer's
`CAPACITY = S - 9` / `DATA_OFFSET = 9`. Returns the copied bytes and
the reader's new cursor.
-/

/-- Shallow embedding of one poll iteration of
`read_shared_memory_loop`: `buflen` is `len(self.buf)`, `buf` the byte
at each absolute offset, `head`/`last_tail` the header value read and
the reader's own cursor. Returns `(data, new last_tail)`. -/
def pollBridge (buflen : Int) (buf : Int → Nat) (head last_tail : Int) :
    List Nat × Int :=
  if head ≠ last_tail then
    let available := if head ≥ last_tail then head - last_tail
      else (buflen - 8) - last_tail + head
    if available > 0 then
      let read_pos := last_tail % (buflen - 8)
      let data := if read_pos + available ≤ buflen - 8
        then sliceRead buf (8 + read_pos) available
        else sliceRead buf (8 + read_pos) (buflen - (8 + read_pos))
          ++ sliceRead buf 8 (available - ((buflen - 8) - read_pos))
      (data, head)
    else ([], last_tail)
  else ([], last_tail)

/-- The reader's view of the writer's shared region state: absolute
offset 8 holds the version byte, offsets `≥ 9` hold payload byte
`i - 9`. (Only offsets `≥ 8` are ever read by the bridge.) -/
def bridgeView (r : ShmRing) : Int → Nat :=
  fun i => if i = 8 then r.version else r.data (i - 9)

/-- **C5**: `poll(last_tail)` returns empty (cursor unchanged) when
`head = last_tail`; otherwise it copies exactly
`(head - last_tail) % capacity` payload bytes starting at offset
`last_tail` (splitting at the capacity boundary when needed, here the
pointwise modular view), and the reader's new cursor is the `head`
value it read. Capacity is the bridge's own `len(buf) - 8`. -/
theorem poll_reader (buflen head last_tail : Int) (buf : Int → Nat)
    (hh0 : 0 ≤ head) (hh : head < buflen - 8)
    (hl0 : 0 ≤ last_tail) (hl : last_tail < buflen - 8) :
    (head = last_tail → pollBridge buflen buf head last_tail = ([], last_tail))
    ∧ (head ≠ last_tail →
        pollBridge buflen buf head last_tail
          = ((List.range ((head - last_tail) % (buflen - 8)).toNat).map
              (fun j : Nat => buf (8 + (last_tail + (j : Int)) % (buflen - 8))),
             head)) := by
  have hcap : 0 < buflen - 8 := by omega
  constructor
  · intro he
    simp [pollBridge, he]
  · intro hne
    have havail : (if head ≥ last_tail then head - last_tail
        else (buflen - 8) - last_tail + head) = (head - last_tail) % (buflen - 8) := by
      split
      · rw [Int.emod_eq_of_lt (by omega) (by omega)]
      · calc (buflen - 8) - last_tail + head
            = (head - last_tail + 1 * (buflen - 8)) := by ring
          _ = (head - last_tail + 1 * (buflen - 8)) % (buflen - 8) :=
              (Int.emod_eq_of_lt (by omega) (by omega)).symm
          _ = (head - last_tail) % (buflen - 8) := Int.add_mul_emod_self
    have hpos : 0 < (head - last_tail) % (buflen - 8) := by
      rw [← havail]
      split <;> omega
    have havail_lt : (head - last_tail) % (buflen - 8) < buflen - 8 :=
      Int.emod_lt_of_pos _ hcap
    have hrp : last_tail % (buflen - 8) = last_tail := Int.emod_eq_of_lt hl0 hl
    have hshift1 : ∀ L : Int, sliceRead buf (8 + last_tail) L
        = sliceRead (fun x => buf (8 + x)) last_tail L :=
      fun L => sliceRead_shift buf 8 last_tail L
    have hshift2 : ∀ L : Int, sliceRead buf 8 L
        = sliceRead (fun x => buf (8 + x)) 0 L := by
      intro L
      simp only [sliceRead]
      refine List.map_congr_left fun i _ => ?_
      congr 1
      ring
    have hlen1 : buflen - (8 + last_tail) = (buflen - 8) - last_tail := by ring
    have hw := wrap_read_eq (fun x => buf (8 + x)) (buflen - 8) last_tail
      ((head - last_tail) % (buflen - 8)) hl0 hl
      (le_of_lt hpos) (le_of_lt havail_lt)
    simp only [pollBridge, if_pos hne, havail, hrp, if_pos hpos, hlen1,
      hshift1, hshift2]
    rw [hw]

/-- Witness for **C5**: buffer of 16 bytes (reader capacity 8), `head =
3`, cursor `1`: the poll copies the 2 bytes at payload offsets 1 and 2
(absolute offsets 9 and 10) and returns cursor 3. -/
theorem poll_reader_witness :
    pollBridge 16 (fun i => i.toNat) 3 1
      = ((List.range (((3 : Int) - 1) % (16 - 8)).toNat).map
          (fun j : Nat => (8 + ((1 : Int) + (j : Int)) % (16 - 8)).toNat), 3) :=
  (poll_reader 16 3 1 (fun i => i.toNat)
    (by decide) (by decide) (by decide) (by decide)).2 (by decide)

/-- **C4** fails on the code: the writer places payload at absolute
offset 9 (`DATA_OFFSET = 9`, `CAPACITY = S - 9`) but the bridge reader
copies from absolute offset 8 with capacity `S - 8`. Writing the single
frame for "hi" into an empty 65536-byte region and polling from cursor
0 returns the version byte followed by the first 23 frame bytes —
not the frame itself, so read-back is not byte-identical. -/
theorem reader_writer_offset_mismatch :
    (pollBridge 65536
        (bridgeView ((writeWord 65536 ⟨0, 0, 0, fun _ => 0⟩ [104, 105] 3 5).getD
          ⟨0, 0, 0, fun _ => 0⟩))
        ((writeWord 65536 ⟨0, 0, 0, fun _ => 0⟩ [104, 105] 3 5).getD
          ⟨0, 0, 0, fun _ => 0⟩).head 0).1
      = 1 :: (frameBytes [104, 105] 3 5).take 23
    ∧ 1 :: (frameBytes [104, 105] 3 5).take 23 ≠ frameBytes [104, 105] 3 5 := by
  constructor
  · decide
  · decide

/-!
## Circular sample buffer (`circular_audio_buffer.py`)

`CircularAudioBuffer` stores `float32` samples; the sample type is kept
abstract (`α`) since the buffer only copies samples. Numeric fields are
`Int` (Python ints); the `numpy` array is a function `Int → α`. The
source mutates in place; here each operation returns the new state
(and the read operations pair the returned samples with it).

For `size = 0` the Python constructor produces a buffer on which any
non-empty `write` raises a numpy broadcast error; all theorems assume
the documented invariant, which forces `size > 0`.
-/

/-- State of `CircularAudioBuffer`. -/
structure CircularAudioBuffer (α : Type) where
  buffer : Int → α
  read_ptr : Int
  write_ptr : Int
  size : Int
  length : Int

namespace CircularAudioBuffer

/-- `write(data)`: keep only the most recent `size` samples of an
oversized batch (`data[-size:]`), copy with wraparound, advance
`write_ptr`, saturate `length` at `size`; the final `read_ptr`
reassignment is the source's (vacuous) overwrite step. -/
def write {α : Type} (b : CircularAudioBuffer α) (data : List α) :
    CircularAudioBuffer α :=
  if (data.length : Int) = 0 then b
  else
    let data1 := if (data.length : Int) > b.size
      then data.drop (data.length - b.size.toNat) else data
    let n : Int := if (data.length : Int) > b.size then b.size else data.length
    let buffer1 := if b.write_ptr + n ≤ b.size
      then sliceWrite b.buffer b.write_ptr data1
      else
        sliceWrite (sliceWrite b.buffer b.write_ptr
          (data1.take (b.size - b.write_ptr).toNat)) 0
          (data1.drop (b.size - b.write_ptr).toNat)
    let write_ptr1 := (b.write_ptr + n) % b.size
    let length1 := min (b.length + n) b.size
    let read_ptr1 := if length1 = b.size ∧ b.read_ptr = write_ptr1
      then write_ptr1 else b.read_ptr
    { buffer := buffer1, read_ptr := read_ptr1, write_ptr := write_ptr1,
      size := b.size, length := length1 }

/-- `read(n)`: empty for `n ≤ 0` or an empty buffer; otherwise remove
and return the `min n length` oldest samples (with wraparound). -/
def read {α : Type} (b : CircularAudioBuffer α) (n : Int) :
    List α × CircularAudioBuffer α :=
  if n ≤ 0 ∨ b.length = 0 then ([], b)
  else
    let n1 := min n b.length
    let data := if b.read_ptr + n1 ≤ b.size
      then sliceRead b.buffer b.read_ptr n1
      else sliceRead b.buffer b.read_ptr (b.size - b.read_ptr)
        ++ sliceRead b.buffer 0 (n1 - (b.size - b.read_ptr))
    (data, { b with read_ptr := (b.read_ptr + n1) % b.size,
                    length := b.length - n1 })

/-- `read_with_overlap(chunk_size, overlap)`: empty (state unchanged)
when `chunk_size ≤ 0` or `length < chunk_size`; otherwise return
`chunk_size` samples from `read_ptr` (with wraparound) and advance
`read_ptr` / decrement `length` by only `chunk_size - overlap`. The
source never validates `overlap`. -/
def read_with_overlap {α : Type} (b : CircularAudioBuffer α)
    (chunk_size overlap : Int) : List α × CircularAudioBuffer α :=
  if chunk_size ≤ 0 ∨ b.length < chunk_size then ([], b)
  else
    let data := if b.read_ptr + chunk_size ≤ b.size
      then sliceRead b.buffer b.read_ptr chunk_size
      else sliceRead b.buffer b.read_ptr (b.size - b.read_ptr)
        ++ sliceRead b.buffer 0 (chunk_size - (b.size - b.read_ptr))
    (data, { b with
      read_ptr := (b.read_ptr + (chunk_size - overlap)) % b.size,
      length := b.length - (chunk_size - overlap) })

/-- The documented invariant of `CircularAudioBuffer`:
`0 ≤ length ≤ size` and both pointers lie in `[0, size)`. -/
def Inv {α : Type} (b : CircularAudioBuffer α) : Prop :=
  0 ≤ b.length ∧ b.length ≤ b.size
    ∧ 0 ≤ b.read_ptr ∧ b.read_ptr < b.size
    ∧ 0 ≤ b.write_ptr ∧ b.write_ptr < b.size

end CircularAudioBuffer

theorem write_preserves_inv {α : Type} (b : CircularAudioBuffer α) (data : List α)
    (hinv : b.Inv) : (b.write data).Inv := by
  obtain ⟨h1, h2, h3, h4, h5, h6⟩ := hinv
  have hsize : 0 < b.size := by omega
  rw [CircularAudioBuffer.write]
  split
  · exact ⟨h1, h2, h3, h4, h5, h6⟩
  · simp only [CircularAudioBuffer.Inv]
    split_ifs <;>
      refine ⟨?_, ?_, ?_, ?_, ?_, ?_⟩ <;>
        first
          | omega
          | exact Int.emod_nonneg _ (by omega)
          | exact Int.emod_lt_of_pos _ hsize

theorem read_preserves_inv {α : Type} (b : CircularAudioBuffer α) (n : Int)
    (hinv : b.Inv) : (b.read n).2.Inv := by
  obtain ⟨h1, h2, h3, h4, h5, h6⟩ := hinv
  have hsize : 0 < b.size := by omega
  rw [CircularAudioBuffer.read]
  split
  · exact ⟨h1, h2, h3, h4, h5, h6⟩
  · rename_i hcond
    rw [not_or] at hcond
    simp only [CircularAudioBuffer.Inv]
    refine ⟨?_, ?_, ?_, ?_, ?_, ?_⟩ <;>
      first
        | omega
        | exact Int.emod_nonneg _ (by omega)
        | exact Int.emod_lt_of_pos _ hsize

theorem read_with_overlap_preserves_inv {α : Type} (b : CircularAudioBuffer α)
    (chunk_size overlap : Int) (hinv : b.Inv)
    (hov0 : 0 ≤ overlap) (hov : overlap < chunk_size) :
    (b.read_with_overlap chunk_size overlap).2.Inv := by
  obtain ⟨h1, h2, h3, h4, h5, h6⟩ := hinv
  have hsize : 0 < b.size := by omega
  rw [CircularAudioBuffer.read_with_overlap]
  split
  · exact ⟨h1, h2, h3, h4, h5, h6⟩
  · rename_i hcond
    rw [not_or, not_le, not_lt] at hcond
    simp only [CircularAudioBuffer.Inv]
    refine ⟨?_, ?_, ?_, ?_, ?_, ?_⟩ <;>
      first
        | omega
        | exact Int.emod_nonneg _ (by omega)
        | exact Int.emod_lt_of_pos _ hsize

/-- **C9**: each `CircularAudioBuffer` operation — `write(data)`,
`read(n)`, and `read_with_overlap(chunk_size, overlap)` with
`0 ≤ overlap < chunk_size` — preserves the invariant
`0 ≤ length ≤ size`, `0 ≤ read_ptr < size`, `0 ≤ write_ptr < size`. -/
theorem cab_ops_preserve_inv {α : Type} (b : CircularAudioBuffer α)
    (data : List α) (n chunk_size overlap : Int) (hinv : b.Inv)
    (hov0 : 0 ≤ overlap) (hov : overlap < chunk_size) :
    (b.write data).Inv ∧ (b.read n).2.Inv
      ∧ (b.read_with_overlap chunk_size overlap).2.Inv :=
  ⟨write_preserves_inv b data hinv, read_preserves_inv b n hinv,
    read_with_overlap_preserves_inv b chunk_size overlap hinv hov0 hov⟩

/-- Witness for **C9** on a concrete 3-sample buffer. -/
theorem cab_ops_preserve_inv_witness :
    (CircularAudioBuffer.write ⟨fun _ => (0 : Int), 0, 0, 3, 0⟩ [5, 7]).Inv
      ∧ ((CircularAudioBuffer.read ⟨fun _ => (0 : Int), 0, 0, 3, 0⟩ 1).2).Inv
      ∧ ((CircularAudioBuffer.read_with_overlap
            ⟨fun _ => (0 : Int), 0, 0, 3, 0⟩ 2 1).2).Inv :=
  cab_ops_preserve_inv ⟨fun _ => (0 : Int), 0, 0, 3, 0⟩ [5, 7] 1 2 1
    ⟨by decide, by decide, by decide, by decide, by decide, by decide⟩
    (by decide) (by decide)

/-- **C10**: writing an empty sample array is a no-op — buffer contents,
`read_ptr`, `write_ptr` and `length` are all unchanged. -/
theorem write_empty_noop {α : Type} (b : CircularAudioBuffer α) : b.write [] = b := by
  simp [CircularAudioBuffer.write]

/-- Under the invariant, a successful `read_with_overlap` returns the
pointwise modular view of the `chunk_size` samples from `read_ptr`. -/
theorem read_with_overlap_data {α : Type} (b : CircularAudioBuffer α)
    (chunk_size overlap : Int) (hinv : b.Inv)
    (hcs : 0 < chunk_size) (hle : chunk_size ≤ b.length) :
    (b.read_with_overlap chunk_size overlap).1
      = (List.range chunk_size.toNat).map
          (fun i : Nat => b.buffer ((b.read_ptr + (i : Int)) % b.size)) := by
  obtain ⟨h1, h2, h3, h4, h5, h6⟩ := hinv
  rw [CircularAudioBuffer.read_with_overlap,
    if_neg (by rw [not_or]; constructor <;> omega)]
  exact wrap_read_eq b.buffer b.size b.read_ptr chunk_size h3 h4
    (le_of_lt hcs) (by omega)

/-- A successful `read_with_overlap` advances `read_ptr` and decrements
`length` by `chunk_size - overlap`, leaving everything else alone. -/
theorem read_with_overlap_state {α : Type} (b : CircularAudioBuffer α)
    (chunk_size overlap : Int) (hcs : 0 < chunk_size)
    (hle : chunk_size ≤ b.length) :
    (b.read_with_overlap chunk_size overlap).2
      = { b with
          read_ptr := (b.read_ptr + (chunk_size - overlap)) % b.size,
          length := b.length - (chunk_size - overlap) } := by
  rw [CircularAudioBuffer.read_with_overlap,
    if_neg (by rw [not_or]; constructor <;> omega)]

/-- **C8**: with `0 ≤ overlap < chunk_size`, two consecutive
`read_with_overlap` calls that both return a full chunk (no intervening
write) overlap as documented: the last `overlap` samples of the first
chunk equal the first `overlap` samples of the second chunk. -/
theorem read_overlap_retained {α : Type} (b : CircularAudioBuffer α)
    (chunk_size overlap : Int) (hinv : b.Inv) (hcs : 0 < chunk_size)
    (hov0 : 0 ≤ overlap) (hov : overlap < chunk_size)
    (hfull1 : chunk_size ≤ b.length)
    (hfull2 : chunk_size ≤ b.length - (chunk_size - overlap)) :
    (b.read_with_overlap chunk_size overlap).1.drop (chunk_size - overlap).toNat
      = ((b.read_with_overlap chunk_size overlap).2.read_with_overlap
          chunk_size overlap).1.take overlap.toNat := by
  have hsize : 0 < b.size := by
    obtain ⟨_, _, h3, h4, _, _⟩ := hinv
    omega
  have hb1inv := read_with_overlap_preserves_inv b chunk_size overlap hinv hov0 hov
  have hst := read_with_overlap_state b chunk_size overlap hcs hfull1
  have hd1 := read_with_overlap_data b chunk_size overlap hinv hcs hfull1
  have hd2 := read_with_overlap_data (b.read_with_overlap chunk_size overlap).2
    chunk_size overlap hb1inv hcs (by rw [hst]; exact hfull2)
  rw [hd1, hd2, hst]
  apply List.ext_getElem
  · simp only [List.length_drop, List.length_take, List.length_map,
      List.length_range]
    omega
  · intro i hi1 hi2
    simp only [List.getElem_drop, List.getElem_take, List.getElem_map,
      List.getElem_range]
    rw [Int.emod_add_emod]
    congr 2
    push_cast [Int.toNat_of_nonneg (by omega : (0 : Int) ≤ chunk_size - overlap)]
    ring

/-- Witness for **C8**: buffer of 10 samples `0..9`,
`read_with_overlap(5, 2)` twice returns `[0,1,2,3,4]` then
`[3,4,5,6,7]`; the last 2 of the first equal the first 2 of the
second. -/
theorem read_overlap_retained_witness :
    (CircularAudioBuffer.read_with_overlap
        ⟨fun i => i, 0, 0, 10, 10⟩ 5 2).1.drop ((5 : Int) - 2).toNat
      = ((CircularAudioBuffer.read_with_overlap
          ⟨fun i => i, 0, 0, 10, 10⟩ 5 2).2.read_with_overlap 5 2).1.take
          (2 : Int).toNat :=
  read_overlap_retained ⟨fun i => i, 0, 0, 10, 10⟩ 5 2
    ⟨by decide, by decide, by decide, by decide, by decide, by decide⟩
    (by decide) (by decide) (by decide) (by decide) (by decide)

/-- **C7** fails on the code: `read_with_overlap` performs no validation
of `overlap`. On a 4-sample buffer holding `0..3`, the call
`read_with_overlap(2, 2)` is not rejected: it proceeds, returns the
full chunk `[0, 1]`, and leaves `length` and `read_ptr` unchanged —
silently making no forward progress. -/
theorem overlap_misuse_counterexample :
    (CircularAudioBuffer.read_with_overlap
        ⟨fun i => i, 0, 0, 4, 4⟩ 2 2).1 = [0, 1]
    ∧ (CircularAudioBuffer.read_with_overlap
        ⟨fun i => i, 0, 0, 4, 4⟩ 2 2).2.length = 4
    ∧ (CircularAudioBuffer.read_with_overlap
        ⟨fun i => i, 0, 0, 4, 4⟩ 2 2).2.read_ptr = 0 := by
  refine ⟨?_, ?_, ?_⟩ <;> decide

/-- **C7 amended**: a call to `read_with_overlap(chunk_size, overlap)`
with `overlap ≥ chunk_size` (and enough data) is NOT rejected: the code
proceeds, returns a full `chunk_size`-sample chunk, and makes no
forward progress — the unread `length` does not decrease (it grows for
`overlap > chunk_size`). -/
theorem overlap_misuse_proceeds {α : Type} (b : CircularAudioBuffer α)
    (chunk_size overlap : Int) (hinv : b.Inv) (hcs : 0 < chunk_size)
    (hle : chunk_size ≤ b.length) (hov : chunk_size ≤ overlap) :
    (b.read_with_overlap chunk_size overlap).1.length = chunk_size.toNat
    ∧ b.length ≤ (b.read_with_overlap chunk_size overlap).2.length := by
  have hd := read_with_overlap_data b chunk_size overlap hinv hcs hle
  have hst := read_with_overlap_state b chunk_size overlap hcs hle
  constructor
  · rw [hd]
    simp
  · rw [hst]
    simp only
    omega

/-- Witness for **C7 amended** on a concrete 4-sample buffer with
`overlap = 3 > chunk_size = 2`. -/
theorem overlap_misuse_proceeds_witness :
    (CircularAudioBuffer.read_with_overlap
        ⟨fun i => i, 0, 0, 4, 4⟩ 2 3).1.length = (2 : Int).toNat
    ∧ (4 : Int) ≤ (CircularAudioBuffer.read_with_overlap
        ⟨fun i => i, 0, 0, 4, 4⟩ 2 3).2.length :=
  overlap_misuse_proceeds ⟨fun i => i, 0, 0, 4, 4⟩ 2 3
    ⟨by decide, by decide, by decide, by decide, by decide, by decide⟩
    (by decide) (by decide) (by decide)

/-!
## Shared region setup (`main_server.py`, module level)

    try:
        shm = shared_memory.SharedMemory(name=SHM_NAME)
    except FileNotFoundError:
        shm = shared_memory.SharedMemory(name=SHM_NAME, create=True,
                                         size=SHM_SIZE)
-/

/-- The spec's fatal setup error taxonomy (§7). -/
inductive SetupError where
  | sizeMismatch

/-- A handle to an attached or freshly created shared region. -/
structure Region where
  size : Nat

/-- Shallow embedding of the region setup: `existing` is the size of an
already existing region of that name (`none` if absent; the
`FileNotFoundError` branch then creates one of the requested size).
Attaching uses the existing region as-is — its actual size — and the
source compares sizes nowhere. The `Except SetupError` codomain exists
to express the spec's `SizeMismatchError`; no code path produces it. -/
def openOrCreate (existing : Option Nat) (size : Nat) : Except SetupError Region :=
  match existing with
  | some existingSize => .ok ⟨existingSize⟩
  | none => .ok ⟨size⟩

/-- **C6** fails on the code: attaching to an existing 4096-byte region
while expecting 65536 bytes succeeds (yielding the existing region
unchanged) instead of failing with `SizeMismatchError`. -/
theorem size_mismatch_unchecked_counterexample :
    (4096 : Nat) ≠ 65536 ∧ openOrCreate (some 4096) 65536 = .ok ⟨4096⟩ :=
  ⟨by decide, rfl⟩

/-- **C6 amended**: `open_or_create` performs no size check on attach —
attaching to an existing region succeeds whatever its size, keeping the
region's existing size; no `SizeMismatchError` is ever raised. -/
theorem open_or_create_attaches_without_size_check (existingSize size : Nat) :
    openOrCreate (some existingSize) size = .ok ⟨existingSize⟩ := rfl
